import Mathlib

/-!
Verification development for the ukpn-constraints monitor
(src/ukpn_constraints/monitoring/monitor_constraints.py).

The module polls an API for constraint readings, derives a utilisation
ratio per reading, and maintains a live plot of the top-K most utilised
constraints over a bounded history window.  Below, each Python function
that the claims touch is embedded as a Lean definition:

  clean_data_and_add_utilisation  (lines 173-184)  -> clean_data_and_add_utilisation
  the ranked-frame assembly of update_graph (59-71) -> rankedRows
  update_graph                    (lines 46-139)   -> update_graph
  the poll loop of main           (lines 228-274)  -> main_model / pollLoop

Modelling conventions:
  * Python floats are modelled by the PyFloat type: exact rationals plus
    the IEEE special values posInf, negInf and nan.  Division is exact
    over the rationals; this agrees with binary64 on every sign test,
    special-value case and comparison made by the claims.
  * Timestamps are abstract minute-resolution values (a natural number);
    the timezone-strip / re-format step of the source is the identity on
    this abstraction.
  * A missing value (NaN coming from the API) is modelled as Option.none.
  * pandas sort_values(ascending=False) is modelled as a stable
    descending sort with the NaN rows appended in their original order
    (na_position is "last").  pandas reduces a descending sort to a
    stable ascending argsort of the reversed frame, reversed again, which
    preserves the original relative order of tied rows; the default
    numpy sort kind realises that stably for frames below its 16-element
    insertion-sort cutoff.
  * Fallible code (the iloc[0] on an empty frame, the list assignment
    lines[i] past the end of the list) returns Except.error, carrying the
    Python exception it models.
-/

namespace Ukpn

/-- Python float fragment: exact rationals plus the IEEE special values. -/
inductive PyFloat where
  | num (q : ℚ)
  | posInf
  | negInf
  | nan
deriving DecidableEq

/-- Whether the value is the IEEE not-a-number. -/
def PyFloat.isNaN : PyFloat → Bool
  | .nan => true
  | _ => false

/-- Strict IEEE comparison.  Any comparison against nan is false. -/
def PyFloat.lt : PyFloat → PyFloat → Bool
  | .nan, _ => false
  | _, .nan => false
  | .negInf, .negInf => false
  | .negInf, _ => true
  | .num _, .negInf => false
  | .num a, .num b => decide (a < b)
  | .num _, .posInf => true
  | .posInf, _ => false

/-- Exact division of rationals, written through Rat.divInt so that it
evaluates by kernel reduction; qdiv_eq_div below proves it is the field
division of the rationals. -/
def qdiv (a b : ℚ) : ℚ := Rat.divInt (a.num * b.den) (a.den * b.num)

/-- IEEE division of a (non-missing) numerator by an optional
denominator, as pandas evaluates present_amps_value / trim_amps:
a missing denominator gives nan; a zero denominator gives a signed
infinity for a nonzero numerator and nan for 0 / 0. -/
def pydivRat (a : ℚ) (b : Option ℚ) : PyFloat :=
  match b with
  | none => .nan
  | some q =>
    if q = 0 then
      if 0 < a then .posInf else if a < 0 then .negInf else .nan
    else .num (qdiv a q)

/-- One raw reading fetched from the API (the fields the claims use;
the remaining columns of the frame are carried through untouched by the
code under study).  none models a missing (NaN) cell. -/
structure Reading where
  timestamp : ℕ
  constraint_description : String
  present_amps_value : Option ℚ
  trim_amps : Option ℚ
deriving DecidableEq

/-- A reading after clean_data_and_add_utilisation: the present value has
been filled, and the utilisation column added. -/
structure DerivedRecord where
  timestamp : ℕ
  constraint_description : String
  present_amps_value : ℚ
  trim_amps : Option ℚ
  utilisation : PyFloat
deriving DecidableEq

/-- The per-row body of clean_data_and_add_utilisation (source lines
178-183): fillna(0) on present_amps_value, timestamp normalisation
(identity on the abstract timestamps), and the utilisation column
present_amps_value / trim_amps. -/
def cleanOne (r : Reading) : DerivedRecord :=
  let p := r.present_amps_value.getD 0
  { timestamp := r.timestamp
    constraint_description := r.constraint_description
    present_amps_value := p
    trim_amps := r.trim_amps
    utilisation := pydivRat p r.trim_amps }

/-- clean_data_and_add_utilisation (source lines 173-184), as the
row-wise transform it performs on the frame. -/
def clean_data_and_add_utilisation (df : List Reading) : List DerivedRecord :=
  df.map cleanOne

/-- The projection df[usecols] at source line 61: only timestamp,
constraint_description and utilisation feed the plot. -/
structure Row where
  timestamp : ℕ
  constraint_description : String
  utilisation : PyFloat
deriving DecidableEq

/-- Projection of a derived record onto the plotting columns. -/
def toRow (d : DerivedRecord) : Row :=
  { timestamp := d.timestamp
    constraint_description := d.constraint_description
    utilisation := d.utilisation }

/-- Stable descending insertion of a row: the row is placed before the
first strictly smaller row, hence after every earlier row of equal
utilisation. -/
def insertRowDesc (r : Row) : List Row → List Row
  | [] => [r]
  | x :: xs =>
    if PyFloat.lt r.utilisation x.utilisation then x :: insertRowDesc r xs
    else r :: x :: xs

/-- Stable descending insertion sort. -/
def sortDesc : List Row → List Row
  | [] => []
  | x :: xs => insertRowDesc x (sortDesc xs)

/-- df.sort_values(utilisation, ascending=False) at source line 63:
the non-NaN rows in stable descending order, then the NaN rows in their
original order (default na_position is last).  The stability of this
model is exact only for frames below the 16-element insertion-sort
cutoff of the default numpy sort kind; for larger frames the source
guarantees a deterministic descending order but not the relative order
of tied rows, so no claim is settled here on the tie order of large
frames - the claims proved below use this sort only through
order-insensitive facts (length, membership, permutation, per-key row
content) or on concrete frames under that cutoff. -/
def sortRowsDesc (df : List Row) : List Row :=
  sortDesc (df.filter fun r => !r.utilisation.isNaN)
    ++ df.filter fun r => r.utilisation.isNaN

/-- df.head(num_constraints_to_plot) at source line 66. -/
def topKdf (df : List Row) (k : ℕ) : List Row :=
  (sortRowsDesc df).take k

/-- The synthetic allowable-utilisation row prepended at source lines
69-71: utilisation exactly 1, timestamp the current shared timestamp. -/
def refRow (t : ℕ) : Row :=
  { timestamp := t
    constraint_description := "Allowable utilisation"
    utilisation := .num 1 }

/-- Source lines 59-71: project, sort descending, truncate to the top K,
read current_timestamp from iloc[0] (an IndexError on an empty frame),
and prepend the reference row. -/
def rankedRows (df : List Row) (k : ℕ) : Except String (List Row) :=
  match (topKdf df k).head? with
  | none => .error "IndexError: single positional indexer is out-of-bounds"
  | some r0 => .ok (refRow r0.timestamp :: topKdf df k)

/-- One matplotlib line of the live plot: its label and its x / y data.
Colour, marker and dash style are presentation attributes the claims do
not mention and are not carried. -/
structure Line where
  label : String
  xdata : List ℕ
  ydata : List PyFloat
deriving DecidableEq

/-- The default used for the (unreachable) out-of-range list reads of
the model. -/
def defaultLine : Line := { label := "", xdata := [], ydata := [] }

/-- constraint[:50], Python slicing by characters (source lines 79 and
101). -/
def labelOf (s : String) : String := ⟨s.data.take 50⟩

/-- Python x[-h:] (source lines 123-124): the last h elements, except
that h = 0 keeps the whole list (x[-0:] is x[0:]). -/
def pySliceLast {α : Type} (l : List α) (h : ℕ) : List α :=
  if h = 0 then l else l.drop (l.length - h)

/-- pandas Series.unique at source line 73: the distinct values in order
of first occurrence. -/
def firstDedupAux (seen : List String) : List String → List String
  | [] => []
  | a :: l =>
    if a ∈ seen then firstDedupAux seen l
    else a :: firstDedupAux (a :: seen) l

/-- The distinct constraint descriptions, first occurrences first. -/
def firstDedup (l : List String) : List String := firstDedupAux [] l

/-- The dict comprehension at source line 98, built over lines[1:]:
a later line with the same label overwrites an earlier one, so a lookup
returns the last line carrying the label. -/
def dictLookup (ls : List Line) (lab : String) : Option Line :=
  ls.reverse.find? fun l => l.label = lab

/-- One first-cycle line (source lines 78-90): the rows of the ranked
frame whose description matches the constraint, as x and y data. -/
def mkBootLine (df : List Row) (c : String) : Line :=
  let subset := df.filter fun r => r.constraint_description = c
  { label := labelOf c
    xdata := subset.map (·.timestamp)
    ydata := subset.map (·.utilisation) }

/-- The body of the update loop at source lines 100-127 for index i and
constraint c: position 0 extends the first line of the old list by the
shared timestamp and utilisation 1; any other position appends the
matching rows of the ranked frame to the line found in the label dict
(or starts afresh), and the result is cut to the last max_plot_history
points. -/
def newLineAt (df : List Row) (ls : List Line) (t : ℕ) (hist : ℕ)
    (i : ℕ) (c : String) : Line :=
  if i = 0 then
    { label := labelOf c
      xdata := pySliceLast ((ls.getD 0 defaultLine).xdata ++ [t]) hist
      ydata := pySliceLast ((ls.getD 0 defaultLine).ydata ++ [PyFloat.num 1]) hist }
  else
    let subset := df.filter fun r => r.constraint_description = c
    let xnew := subset.map (·.timestamp)
    let ynew := subset.map (·.utilisation)
    match dictLookup ls.tail (labelOf c) with
    | some old =>
      { label := labelOf c
        xdata := pySliceLast (old.xdata ++ xnew) hist
        ydata := pySliceLast (old.ydata ++ ynew) hist }
    | none =>
      { label := labelOf c
        xdata := pySliceLast xnew hist
        ydata := pySliceLast ynew hist }

/-- The line stored at position i after the update loop of source lines
100-127: positions below the number of distinct constraints are rebuilt
by newLineAt; later positions keep the old line object. -/
def rebuiltAt (df : List Row) (ls : List Line) (t hist : ℕ) (i : ℕ) : Line :=
  if i < (firstDedup (df.map (·.constraint_description))).length then
    newLineAt df ls t hist i
      ((firstDedup (df.map (·.constraint_description))).getD i "")
  else ls.getD i defaultLine

/-- The whole line list after the update loop. -/
def rebuiltLines (df : List Row) (ls : List Line) (t hist : ℕ) : List Line :=
  (List.range ls.length).map (rebuiltAt df ls t hist)

/-- The branch on the existing lines (source lines 77-137), applied to
the ranked frame df (reference row first) and its shared timestamp t.
An empty list takes the bootstrap path; otherwise, if the timestamp is
already in the x data of the first line the call is a no-op skip; else
every index below the number of distinct constraints is rebuilt in
place, which raises IndexError when that number exceeds the number of
existing lines. -/
def mergeStep (df : List Row) (t : ℕ) (lines : List Line) (hist : ℕ) :
    Except String (List Line) :=
  let cs := firstDedup (df.map (·.constraint_description))
  match lines with
  | [] => .ok (cs.map (mkBootLine df))
  | l0 :: rest =>
    if t ∈ l0.xdata then .ok (l0 :: rest)
    else if (l0 :: rest).length < cs.length then
      .error "IndexError: list index out of range"
    else
      .ok (rebuiltLines df (l0 :: rest) t hist)

/-- update_graph (source lines 46-139).  current_timestamp is iloc[0]
of the sorted, truncated frame - an IndexError when that frame is
empty (empty input or a zero plot count). -/
def update_graph (df0 : List Row) (lines : List Line) (k hist : ℕ) :
    Except String (List Line) :=
  match (topKdf df0 k).head? with
  | none => .error "IndexError: single positional indexer is out-of-bounds"
  | some r0 => mergeStep (refRow r0.timestamp :: topKdf df0 k) r0.timestamp lines hist

/-- The number of distinct keys (reference included) a cycle draws,
as update_graph computes it; it does not depend on the shared
timestamp because the reference description is fixed. -/
def numConstraints (df0 : List Row) (k : ℕ) : ℕ :=
  (firstDedup ("Allowable utilisation" :: (topKdf df0 k).map (·.constraint_description))).length

/-- Iterated cycles of update_graph over successive snapshots. -/
def runCycles (k hist : ℕ) : List (List Row) → List Line → Except String (List Line)
  | [], lines => .ok lines
  | df :: rest, lines =>
    match update_graph df lines k hist with
    | .error e => .error e
    | .ok lines2 => runCycles k hist rest lines2

/-- The observable steps of one run of main (source lines 228-274), in
program order: output-directory creation, interactive-plot setup, entry
into a cycle of the while loop, the HTTP request issued inside
hit_api_and_return_data, the CSV save, the graph update, and the
end-of-cycle sleep. -/
inductive Event where
  | mkdirOutput
  | plotInit
  | loopEnter
  | httpRequest
  | persistCsv
  | graphUpdate
  | sleep
deriving DecidableEq

/-- The Python truthiness test at source line 210: not api_key is true
for a missing key and for an empty string. -/
def keyMissing : Option String → Bool
  | none => true
  | some s => s = ""

/-- How a run of the (infinite) loop ends within the supplied fuel:
either an exception other than KeyboardInterrupt escaped - only
KeyboardInterrupt is caught, so the process dies with a nonzero exit
status - or the modelled fetch results ran out. -/
inductive RunOutcome where
  | crashed (msg : String)
  | fuelExhausted (lines : List Line)
deriving DecidableEq

/-- The while loop of main (source lines 252-271), driven by one
fetched result list per cycle.  The missing-key exception is raised by
hit_api_and_return_data before its HTTP request, inside the first
iteration; an empty frame skips persist and render and sleeps; an
exception escaping update_graph ends the run (the try block only
catches KeyboardInterrupt). -/
def pollLoop (key : Option String) (k hist : ℕ) :
    List (List Reading) → List Line → List Event × RunOutcome
  | [], lines => ([], .fuelExhausted lines)
  | df :: rest, lines =>
    if keyMissing key then
      ([Event.loopEnter], .crashed "API key is required to fetch data from the API.")
    else if df.isEmpty then
      let r := pollLoop key k hist rest lines
      (Event.loopEnter :: Event.httpRequest :: Event.sleep :: r.1, r.2)
    else
      let cleaned := clean_data_and_add_utilisation df
      match update_graph (cleaned.map toRow) lines k hist with
      | .error e =>
        ([Event.loopEnter, Event.httpRequest, Event.persistCsv], .crashed e)
      | .ok lines2 =>
        let r := pollLoop key k hist rest lines2
        (Event.loopEnter :: Event.httpRequest :: Event.persistCsv ::
          Event.graphUpdate :: Event.sleep :: r.1, r.2)

/-- main (source lines 228-274): directory creation and plot
initialisation precede the loop, which starts from an empty line
list. -/
def main_model (key : Option String) (k hist : ℕ)
    (fetches : List (List Reading)) : List Event × RunOutcome :=
  let r := pollLoop key k hist fetches []
  (Event.mkdirOutput :: Event.plotInit :: r.1, r.2)

/-- Descending between-rows relation: the later row is never strictly
above the earlier one. -/
def rowDescRel (a b : Row) : Prop :=
  PyFloat.lt a.utilisation b.utilisation = false

/-- A snapshot contributing one point per key: its description column is
a permutation of the fixed key list and all rows carry the shared
timestamp. -/
def GoodSnap (keys : List String) (t : ℕ) (df : List Row) : Prop :=
  (df.map (·.constraint_description)).Perm keys ∧ ∀ r ∈ df, r.timestamp = t

/-- Invariant of the line list between cycles of update_graph when
every cycle matches the same key list: the reference line sits first,
every x value of it stems from a processed timestamp, the tail labels
are the key labels, and every line of a key carries exactly the last
max_plot_history processed timestamps. -/
def WindowInv (keys : List String) (hist : ℕ) (past : List ℕ) (ls : List Line) : Prop :=
  ∃ l0 tl, ls = l0 :: tl
    ∧ l0.label = "Allowable utilisation"
    ∧ (∀ x ∈ l0.xdata, x ∈ past)
    ∧ (tl.map (·.label)).Perm (keys.map labelOf)
    ∧ ∀ c ∈ keys, ∀ ln ∈ tl, ln.label = labelOf c →
        ln.xdata = pySliceLast past hist ∧ ln.ydata.length = ln.xdata.length

end Ukpn

namespace Ukpn

theorem qdiv_eq_div (a b : ℚ) : qdiv a b = a / b := (Rat.div_def' a b).symm

theorem PyFloat.lt_irrefl (a : PyFloat) : PyFloat.lt a a = false := by
  cases a <;> simp [PyFloat.lt]

theorem PyFloat.lt_asymm {a b : PyFloat} (h : PyFloat.lt a b = true) :
    PyFloat.lt b a = false := by
  cases a <;> cases b <;> simp_all [PyFloat.lt] <;> linarith

theorem PyFloat.lt_false_trans {a b c : PyFloat} (hb : b.isNaN = false)
    (h1 : PyFloat.lt a b = false) (h2 : PyFloat.lt b c = false) :
    PyFloat.lt a c = false := by
  cases a <;> cases b <;> cases c <;> simp_all [PyFloat.lt, PyFloat.isNaN] <;> linarith

theorem PyFloat.lt_of_nan_right {a b : PyFloat} (hb : b.isNaN = true) :
    PyFloat.lt a b = false := by
  cases b <;> simp_all [PyFloat.isNaN] ; cases a <;> simp [PyFloat.lt]

theorem PyFloat.lt_of_nan_left {a b : PyFloat} (ha : a.isNaN = true) :
    PyFloat.lt a b = false := by
  cases a <;> simp_all [PyFloat.isNaN] ; simp [PyFloat.lt]

theorem perm_insertRowDesc (r : Row) (l : List Row) :
    (insertRowDesc r l).Perm (r :: l) := by
  induction l with
  | nil => rfl
  | cons x xs ih =>
    simp only [insertRowDesc]
    split
    · exact ((ih.cons x).trans (List.Perm.swap r x xs))
    · rfl

theorem sortDesc_perm (l : List Row) : (sortDesc l).Perm l := by
  induction l with
  | nil => rfl
  | cons x xs ih => exact (perm_insertRowDesc x (sortDesc xs)).trans (ih.cons x)

theorem sortRowsDesc_perm (df : List Row) : (sortRowsDesc df).Perm df := by
  unfold sortRowsDesc
  refine ((sortDesc_perm _).append_right _).trans ?_
  have h := List.filter_append_perm (fun r => !r.utilisation.isNaN) df
  simp only [Bool.not_not] at h
  exact h

end Ukpn

namespace Ukpn


theorem mem_insertRowDesc {y r : Row} {l : List Row}
    (h : y ∈ insertRowDesc r l) : y = r ∨ y ∈ l :=
  List.mem_cons.mp ((perm_insertRowDesc r l).mem_iff.mp h)

theorem pairwise_insertRowDesc (r : Row) (l : List Row)
    (hnan : ∀ x ∈ l, x.utilisation.isNaN = false)
    (h : List.Pairwise rowDescRel l) :
    List.Pairwise rowDescRel (insertRowDesc r l) := by
  induction l with
  | nil => simp [insertRowDesc, rowDescRel]
  | cons x xs ih =>
    simp only [insertRowDesc]
    rcases List.pairwise_cons.mp h with ⟨hx, hxs⟩
    split
    · next hlt =>
      refine List.pairwise_cons.mpr ⟨?_, ih (fun y hy => hnan y (List.mem_cons_of_mem x hy)) hxs⟩
      intro y hy
      rcases mem_insertRowDesc hy with rfl | hy
      · exact PyFloat.lt_asymm hlt
      · exact hx y hy
    · next hlt =>
      have hrx : PyFloat.lt r.utilisation x.utilisation = false := by
        simpa using hlt
      refine List.pairwise_cons.mpr ⟨?_, h⟩
      intro y hy
      rcases List.mem_cons.mp hy with rfl | hy
      · exact hrx
      · exact PyFloat.lt_false_trans (hnan x (List.mem_cons_self x xs)) hrx (hx y hy)

theorem pairwise_sortDesc (l : List Row)
    (hnan : ∀ x ∈ l, x.utilisation.isNaN = false) :
    List.Pairwise rowDescRel (sortDesc l) := by
  induction l with
  | nil => simp [sortDesc]
  | cons x xs ih =>
    have hxs : ∀ y ∈ sortDesc xs, y.utilisation.isNaN = false := fun y hy =>
      hnan y (List.mem_cons_of_mem x ((sortDesc_perm xs).mem_iff.mp hy))
    exact pairwise_insertRowDesc x (sortDesc xs) hxs
      (ih fun y hy => hnan y (List.mem_cons_of_mem x hy))

theorem pairwise_sortRowsDesc (df : List Row) :
    List.Pairwise rowDescRel (sortRowsDesc df) := by
  unfold sortRowsDesc
  rw [List.pairwise_append]
  refine ⟨pairwise_sortDesc _ ?_, ?_, ?_⟩
  · intro x hx
    simpa using (List.mem_filter.mp hx).2
  · refine List.pairwise_of_forall_mem_list ?_
    intro a ha _ _
    exact PyFloat.lt_of_nan_left (by simpa using (List.mem_filter.mp ha).2)
  · intro a _ b hb
    exact PyFloat.lt_of_nan_right (by simpa using (List.mem_filter.mp hb).2)

end Ukpn

namespace Ukpn

theorem PyFloat.isNaN_iff {a : PyFloat} : a.isNaN = true ↔ a = .nan := by
  cases a <;> simp [PyFloat.isNaN]

theorem filter_insertRowDesc (v : PyFloat) (r : Row) (l : List Row) :
    (insertRowDesc r l).filter (fun x => x.utilisation = v)
      = if r.utilisation = v then r :: l.filter (fun x => x.utilisation = v)
        else l.filter (fun x => x.utilisation = v) := by
  induction l with
  | nil =>
    simp only [insertRowDesc, List.filter_cons, List.filter_nil]
    split <;> simp_all
  | cons x xs ih =>
    simp only [insertRowDesc]
    split
    · next hlt =>
      by_cases hx : x.utilisation = v
      · by_cases hr : r.utilisation = v
        · rw [hr, ← hx] at hlt
          exact absurd hlt (by simp [PyFloat.lt_irrefl])
        · simp [List.filter_cons, hx, hr, ih]
      · simp [List.filter_cons, hx, ih]
    · next hlt =>
      by_cases hr : r.utilisation = v
      · simp [List.filter_cons, hr]
      · simp [List.filter_cons, hr]

theorem filter_sortDesc (v : PyFloat) (l : List Row) :
    (sortDesc l).filter (fun x => x.utilisation = v)
      = l.filter (fun x => x.utilisation = v) := by
  induction l with
  | nil => rfl
  | cons x xs ih =>
    simp only [sortDesc, filter_insertRowDesc, List.filter_cons, ih]
    split <;> simp_all

theorem filter_sortRowsDesc (v : PyFloat) (df : List Row) :
    (sortRowsDesc df).filter (fun x => x.utilisation = v)
      = df.filter (fun x => x.utilisation = v) := by
  unfold sortRowsDesc
  rw [List.filter_append, filter_sortDesc, List.filter_filter, List.filter_filter]
  by_cases hv : v = .nan
  · subst hv
    have h1 : df.filter (fun a => decide (a.utilisation = PyFloat.nan) && !a.utilisation.isNaN) = [] := by
      apply List.filter_eq_nil_iff.mpr
      intro a _
      by_cases h : a.utilisation = PyFloat.nan
      · simp [h, PyFloat.isNaN]
      · simp [h]
    have h2 : df.filter (fun a => decide (a.utilisation = PyFloat.nan) && a.utilisation.isNaN)
        = df.filter (fun a => a.utilisation = PyFloat.nan) := by
      apply List.filter_congr
      intro a _
      by_cases h : a.utilisation = PyFloat.nan
      · simp [h, PyFloat.isNaN]
      · simp [h]
    rw [h1, h2, List.nil_append]
  · have h1 : df.filter (fun a => decide (a.utilisation = v) && !a.utilisation.isNaN)
        = df.filter (fun a => a.utilisation = v) := by
      apply List.filter_congr
      intro a _
      by_cases h : a.utilisation = v
      · have hvn : v.isNaN = false := by
          cases v <;> simp_all [PyFloat.isNaN]
        simp [h, hvn]
      · simp [h]
    have h2 : df.filter (fun a => decide (a.utilisation = v) && a.utilisation.isNaN) = [] := by
      apply List.filter_eq_nil_iff.mpr
      intro a _
      by_cases h : a.utilisation = v
      · have hvn : v.isNaN = false := by
          cases v <;> simp_all [PyFloat.isNaN]
        simp [h, hvn]
      · simp [h]
    rw [h1, h2, List.append_nil]

end Ukpn

namespace Ukpn

theorem length_topKdf (df : List Row) (k : ℕ) :
    (topKdf df k).length = min k df.length := by
  simp [topKdf, (sortRowsDesc_perm df).length_eq]

theorem mem_of_mem_topKdf {r : Row} {df : List Row} {k : ℕ}
    (h : r ∈ topKdf df k) : r ∈ df :=
  (sortRowsDesc_perm df).mem_iff.mp (List.take_subset _ _ h)

theorem topKdf_ne_nil {df : List Row} {k : ℕ} (hk : 1 ≤ k) (hne : df ≠ []) :
    topKdf df k ≠ [] := by
  apply List.ne_nil_of_length_pos
  rw [length_topKdf]
  have : 0 < df.length := List.length_pos.mpr hne
  omega

theorem rankedRows_eq {df : List Row} {k t : ℕ} (hk : 1 ≤ k) (hne : df ≠ [])
    (ht : ∀ r ∈ df, r.timestamp = t) :
    rankedRows df k = .ok (refRow t :: topKdf df k) := by
  obtain ⟨r0, rest, hcons⟩ := List.exists_cons_of_ne_nil (topKdf_ne_nil hk hne)
  have hr0 : r0 ∈ topKdf df k := by rw [hcons]; exact List.mem_cons_self _ _
  have hts : r0.timestamp = t := ht r0 (mem_of_mem_topKdf hr0)
  rw [rankedRows, hcons]
  simp [hts]

theorem pySliceLast_mem_last {α : Type} (l : List α) (x : α) (h : ℕ) :
    x ∈ pySliceLast (l ++ [x]) h := by
  unfold pySliceLast
  split
  · exact List.mem_append_right l (List.mem_singleton.mpr rfl)
  · next hh =>
    have hle : (l ++ [x]).length - h ≤ l.length := by
      simp only [List.length_append, List.length_singleton]
      omega
    rw [List.drop_append_of_le_length hle]
    exact List.mem_append_right _ (List.mem_singleton.mpr rfl)

theorem mergeStep_skip {df : List Row} {t : ℕ} {l0 : Line} {rest : List Line}
    {hist : ℕ} (hmem : t ∈ l0.xdata) :
    mergeStep df t (l0 :: rest) hist = .ok (l0 :: rest) := by
  unfold mergeStep
  simp [hmem]

theorem mergeStep_ok_head {df : List Row} {t : ℕ} {lines lines' : List Line}
    {hist : ℕ} (hhead : df.head? = some (refRow t))
    (hok : mergeStep df t lines hist = .ok lines') :
    ∃ l0 rest, lines' = l0 :: rest ∧ t ∈ l0.xdata := by
  obtain ⟨dftail, hdf⟩ : ∃ dftail, df = refRow t :: dftail := by
    cases df with
    | nil => simp at hhead
    | cons a l =>
      simp only [List.head?_cons, Option.some.injEq] at hhead
      exact ⟨l, by rw [hhead]⟩
  subst hdf
  unfold mergeStep at hok
  cases lines with
  | nil =>
    simp only [Except.ok.injEq] at hok
    have hcs : firstDedup ((refRow t :: dftail).map (·.constraint_description))
        = "Allowable utilisation" ::
          firstDedupAux ["Allowable utilisation"] (dftail.map (·.constraint_description)) := by
      simp [firstDedup, firstDedupAux, refRow]
    rw [hcs] at hok
    simp only [List.map_cons] at hok
    refine ⟨_, _, hok.symm, ?_⟩
    have hfil : (refRow t :: dftail).filter
        (fun r => r.constraint_description = "Allowable utilisation")
        = refRow t :: dftail.filter
            (fun r => r.constraint_description = "Allowable utilisation") := by
      simp [List.filter_cons, refRow]
    simp only [mkBootLine, hfil, List.map_cons]
    exact List.mem_cons_self _ _
  | cons l0 rest =>
    simp only at hok
    by_cases hmem : t ∈ l0.xdata
    · simp only [if_pos hmem, Except.ok.injEq] at hok
      exact ⟨l0, rest, hok.symm, hmem⟩
    · rw [if_neg hmem] at hok
      by_cases hlen : (l0 :: rest).length <
          (firstDedup ((refRow t :: dftail).map (·.constraint_description))).length
      · rw [if_pos hlen] at hok
        cases hok
      · rw [if_neg hlen] at hok
        simp only [Except.ok.injEq] at hok
        have hcs0 : 0 < (firstDedup ((refRow t :: dftail).map (·.constraint_description))).length := by
          simp [firstDedup, firstDedupAux, refRow]
        rw [rebuiltLines, show (l0 :: rest).length = rest.length + 1 from rfl,
          List.range_succ_eq_map, List.map_cons] at hok
        rw [show rebuiltAt (refRow t :: dftail) (l0 :: rest) t hist 0
            = newLineAt (refRow t :: dftail) (l0 :: rest) t hist 0
                ((firstDedup ((refRow t :: dftail).map (·.constraint_description))).getD 0 "")
          from by rw [rebuiltAt, if_pos hcs0]] at hok
        refine ⟨_, _, hok.symm, ?_⟩
        simp only [newLineAt, if_pos rfl, List.getD_cons_zero]
        exact pySliceLast_mem_last _ _ _

end Ukpn

namespace Ukpn

theorem update_graph_eq_of_head {df : List Row} {k : ℕ} {r0 : Row}
    (hh : (topKdf df k).head? = some r0) (lines : List Line) (hist : ℕ) :
    update_graph df lines k hist
      = mergeStep (refRow r0.timestamp :: topKdf df k) r0.timestamp lines hist := by
  unfold update_graph
  rw [hh]

theorem update_graph_ok_first {df : List Row} {lines lines' : List Line}
    {k hist t : ℕ} (ht : ∀ r ∈ df, r.timestamp = t)
    (hok : update_graph df lines k hist = .ok lines') :
    1 ≤ k ∧ df ≠ [] ∧ ∃ l0 rest, lines' = l0 :: rest ∧ t ∈ l0.xdata := by
  cases hh : (topKdf df k).head? with
  | none =>
    unfold update_graph at hok
    rw [hh] at hok
    cases hok
  | some r0 =>
    rw [update_graph_eq_of_head hh] at hok
    have hmem : r0 ∈ topKdf df k := List.mem_of_mem_head? (by rw [hh]; simp)
    have hlen : 0 < (topKdf df k).length :=
      List.length_pos.mpr (List.ne_nil_of_mem hmem)
    rw [length_topKdf] at hlen
    have hts : r0.timestamp = t := ht r0 (mem_of_mem_topKdf hmem)
    rw [hts] at hok
    refine ⟨by omega, fun hnil => by simp [hnil] at hlen, ?_⟩
    exact mergeStep_ok_head (by simp) hok

theorem update_graph_repoll_skip {df2 : List Row} {l0 : Line}
    {rest : List Line} {k hist t : ℕ}
    (ht2 : ∀ r ∈ df2, r.timestamp = t) (hne2 : df2 ≠ []) (hk : 1 ≤ k)
    (hmem : t ∈ l0.xdata) :
    update_graph df2 (l0 :: rest) k hist = .ok (l0 :: rest) := by
  obtain ⟨r0, rtl, hcons⟩ := List.exists_cons_of_ne_nil (topKdf_ne_nil hk hne2)
  have hh : (topKdf df2 k).head? = some r0 := by rw [hcons]; rfl
  have hts : r0.timestamp = t :=
    ht2 r0 (mem_of_mem_topKdf (List.mem_of_mem_head? (by rw [hh]; simp)))
  rw [update_graph_eq_of_head hh, hts]
  exact mergeStep_skip hmem

theorem mergeStep_slots {df : List Row} {t : ℕ} {lines lines' : List Line}
    {hist : ℕ} (hok : mergeStep df t lines hist = .ok lines') :
    ∀ i, (firstDedup (df.map (·.constraint_description))).length ≤ i →
      lines'[i]? = lines[i]? := by
  intro i hi
  unfold mergeStep at hok
  cases lines with
  | nil =>
    simp only [Except.ok.injEq] at hok
    rw [← hok]
    have h1 : ((firstDedup (df.map (·.constraint_description))).map (mkBootLine df)).length ≤ i := by
      rw [List.length_map]
      exact hi
    rw [List.getElem?_eq_none h1]
    simp
  | cons l0 rest =>
    simp only at hok
    by_cases hmem : t ∈ l0.xdata
    · rw [if_pos hmem] at hok
      simp only [Except.ok.injEq] at hok
      rw [← hok]
    · rw [if_neg hmem] at hok
      by_cases hlen : (l0 :: rest).length <
          (firstDedup (df.map (·.constraint_description))).length
      · rw [if_pos hlen] at hok
        cases hok
      · rw [if_neg hlen] at hok
        simp only [Except.ok.injEq] at hok
        rw [← hok, rebuiltLines]
        by_cases hil : i < (l0 :: rest).length
        · rw [List.getElem?_map, List.getElem?_range hil]
          simp only [Option.map_some']
          rw [rebuiltAt, if_neg (by omega)]
          rw [List.getElem?_eq_getElem hil]
          simp [List.getD_eq_getElem?_getD, List.getElem?_eq_getElem hil]
        · have hge : (l0 :: rest).length ≤ i := by omega
          rw [List.getElem?_eq_none hge,
            List.getElem?_eq_none (by simpa using hge)]

end Ukpn


namespace Ukpn



theorem pySliceLast_length {α : Type} (l : List α) (h : ℕ) :
    (pySliceLast l h).length = if h = 0 then l.length else min h l.length := by
  unfold pySliceLast
  split <;> simp <;> omega

theorem pySliceLast_sublist {α : Type} (l : List α) (h : ℕ) :
    (pySliceLast l h).Sublist l := by
  unfold pySliceLast
  split
  · exact List.Sublist.refl l
  · exact List.drop_sublist _ l

theorem pySliceLast_append_left {α : Type} (l l2 : List α) (h : ℕ) :
    pySliceLast (pySliceLast l h ++ l2) h = pySliceLast (l ++ l2) h := by
  unfold pySliceLast
  by_cases h0 : h = 0
  · simp [h0]
  · rw [if_neg h0, if_neg h0, if_neg h0]
    rw [List.drop_append_eq_append_drop, List.drop_append_eq_append_drop,
      List.drop_drop]
    congr 1
    · congr 1
      simp only [List.length_append, List.length_drop]
      omega
    · congr 1
      simp only [List.length_append, List.length_drop]
      omega

theorem firstDedupAux_of_nodup (seen : List String) (l : List String)
    (hnd : l.Nodup) (hd : ∀ a ∈ l, a ∉ seen) : firstDedupAux seen l = l := by
  induction l generalizing seen with
  | nil => rfl
  | cons a tl ih =>
    rw [firstDedupAux, if_neg (hd a (List.mem_cons_self a tl))]
    congr 1
    refine ih (a :: seen) (List.Nodup.of_cons hnd) ?_
    intro b hb
    rcases List.pairwise_cons.mp hnd with ⟨hne, _⟩
    intro hmem
    rcases List.mem_cons.mp hmem with rfl | hmem
    · exact hne b hb rfl
    · exact hd b (List.mem_cons_of_mem a hb) hmem

theorem firstDedup_cons_of_nodup {a : String} {l : List String}
    (hnd : l.Nodup) (ha : a ∉ l) : firstDedup (a :: l) = a :: l := by
  rw [firstDedup, firstDedupAux, if_neg (List.not_mem_nil a)]
  congr 1
  refine firstDedupAux_of_nodup _ l hnd ?_
  intro b hb hmem
  rcases List.mem_cons.mp hmem with rfl | hmem
  · exact ha hb
  · exact List.not_mem_nil b hmem

theorem dictLookup_found {ls : List Line} {lab : String}
    (h : ∃ l ∈ ls, l.label = lab) :
    ∃ old, dictLookup ls lab = some old ∧ old ∈ ls ∧ old.label = lab := by
  obtain ⟨l, hl, hlab⟩ := h
  have hs : (ls.reverse.find? fun x => x.label = lab).isSome := by
    rw [List.find?_isSome]
    exact ⟨l, List.mem_reverse.mpr hl, by simp [hlab]⟩
  obtain ⟨old, hold⟩ := Option.isSome_iff_exists.mp hs
  refine ⟨old, hold, ?_, ?_⟩
  · exact List.mem_reverse.mp (List.mem_of_find?_eq_some hold)
  · simpa using List.find?_some hold

theorem map_range_getD {α β : Type} (l : List α) (d : α) (g : α → β) :
    (List.range l.length).map (fun j => g (l.getD j d)) = l.map g := by
  apply List.ext_getElem
  · simp
  · intro i h1 h2
    simp only [List.getElem_map, List.getElem_range,
      List.getD_eq_getElem?_getD]
    rw [List.getElem?_eq_getElem (by simpa using h2)]
    rfl

end Ukpn

namespace Ukpn

theorem labelOf_ref : labelOf "Allowable utilisation" = "Allowable utilisation" := by decide

theorem pySliceLast_singleton {α : Type} (x : α) (h : ℕ) :
    pySliceLast [x] h = [x] := by
  unfold pySliceLast
  split
  · rfl
  · next hh =>
    have : (1 : ℕ) - h = 0 := by omega
    simp [this]

theorem goodSnap_ne_nil {keys : List String} {t : ℕ} {df : List Row}
    (hg : GoodSnap keys t df) (hne : keys ≠ []) : df ≠ [] := by
  intro hdf
  subst hdf
  exact hne hg.1.symm.eq_nil

theorem goodSnap_topK {keys : List String} {t : ℕ} {df : List Row} {k : ℕ}
    (hg : GoodSnap keys t df) (hK : keys.length ≤ k) :
    topKdf df k = sortRowsDesc df := by
  apply List.take_of_length_le
  rw [(sortRowsDesc_perm df).length_eq]
  have := hg.1.length_eq
  rw [List.length_map] at this
  omega

theorem goodSnap_sorted_desc_perm {keys : List String} {t : ℕ} {df : List Row}
    (hg : GoodSnap keys t df) :
    ((sortRowsDesc df).map (·.constraint_description)).Perm keys :=
  ((sortRowsDesc_perm df).map _).trans hg.1

theorem goodSnap_cs {keys : List String} {t : ℕ} {df : List Row}
    (hg : GoodSnap keys t df) (hndk : keys.Nodup)
    (hrefs : ∀ c ∈ keys, c ≠ "Allowable utilisation") :
    firstDedup ((refRow t :: sortRowsDesc df).map (·.constraint_description))
      = "Allowable utilisation" :: (sortRowsDesc df).map (·.constraint_description) := by
  have hperm := goodSnap_sorted_desc_perm hg
  rw [List.map_cons]
  show firstDedup ("Allowable utilisation" :: _) = _
  apply firstDedup_cons_of_nodup
  · exact (hperm.nodup_iff.mpr hndk)
  · intro hmem
    exact hrefs _ (hperm.mem_iff.mp hmem) rfl

theorem goodSnap_filter_key {keys : List String} {t : ℕ} {df : List Row}
    {c : String} (hg : GoodSnap keys t df) (hndk : keys.Nodup) (hc : c ∈ keys)
    (hcref : c ≠ "Allowable utilisation") :
    ∃ r : Row, (refRow t :: sortRowsDesc df).filter
        (fun x => x.constraint_description = c) = [r]
      ∧ r.timestamp = t ∧ r.constraint_description = c := by
  have hperm := goodSnap_sorted_desc_perm hg
  have hfc : (refRow t :: sortRowsDesc df).filter
      (fun x => x.constraint_description = c)
      = (sortRowsDesc df).filter (fun x => x.constraint_description = c) := by
    rw [List.filter_cons]
    simp [refRow, Ne.symm hcref]
  have hlen : ((sortRowsDesc df).filter
      (fun x => x.constraint_description = c)).length = 1 := by
    rw [← List.countP_eq_length_filter]
    have h1 : (sortRowsDesc df).countP (fun x => decide (x.constraint_description = c))
        = ((sortRowsDesc df).map (·.constraint_description)).countP (fun s => decide (s = c)) := by
      rw [List.countP_map]
      rfl
    rw [h1, hperm.countP_eq]
    have h2 : keys.countP (fun s => decide (s = c)) = keys.count c := by
      rw [List.count]
      apply List.countP_congr
      intro s _
      constructor
      · intro h
        simpa using of_decide_eq_true h
      · intro h
        simp [eq_of_beq h]
    rw [h2]
    exact List.count_eq_one_of_mem hndk hc
  obtain ⟨r, hr⟩ := List.length_eq_one.mp hlen
  refine ⟨r, by rw [hfc, hr], ?_, ?_⟩
  · have hrin : r ∈ (sortRowsDesc df).filter (fun x => x.constraint_description = c) := by
      rw [hr]; exact List.mem_singleton.mpr rfl
    have := (sortRowsDesc_perm df).mem_iff.mp (List.mem_of_mem_filter hrin)
    exact hg.2 r this
  · have hrin : r ∈ (sortRowsDesc df).filter (fun x => x.constraint_description = c) := by
      rw [hr]; exact List.mem_singleton.mpr rfl
    simpa using List.of_mem_filter hrin

end Ukpn

namespace Ukpn

theorem keys_ne_ref {keys : List String}
    (href : ∀ c ∈ keys, labelOf c ≠ "Allowable utilisation") :
    ∀ c ∈ keys, c ≠ "Allowable utilisation" := by
  intro c hc hceq
  exact href c hc (by rw [hceq, labelOf_ref])

theorem window_boot {keys : List String} {k hist t : ℕ} {df : List Row}
    (hnd : (keys.map labelOf).Nodup)
    (href : ∀ c ∈ keys, labelOf c ≠ "Allowable utilisation")
    (hK : keys.length ≤ k) (hne : keys ≠ [])
    (hg : GoodSnap keys t df) :
    ∃ ls', update_graph df [] k hist = .ok ls'
      ∧ WindowInv keys hist [t] ls' := by
  have hndk : keys.Nodup := hnd.of_map
  have hrefs := keys_ne_ref href
  have hdfne : df ≠ [] := goodSnap_ne_nil hg hne
  have htop : topKdf df k = sortRowsDesc df := goodSnap_topK hg hK
  have hsne : sortRowsDesc df ≠ [] := by
    intro h
    apply hdfne
    have hp := sortRowsDesc_perm df
    rw [h] at hp
    exact hp.symm.eq_nil
  obtain ⟨r0, rtl, hcons⟩ := List.exists_cons_of_ne_nil hsne
  have hh : (topKdf df k).head? = some r0 := by rw [htop, hcons]; rfl
  have hts : r0.timestamp = t := hg.2 r0 ((sortRowsDesc_perm df).mem_iff.mp
    (by rw [hcons]; exact List.mem_cons_self _ _))
  rw [update_graph_eq_of_head hh, hts, htop]
  have hcs := goodSnap_cs hg hndk hrefs
  have hstep : mergeStep (refRow t :: sortRowsDesc df) t [] hist
      = .ok ((firstDedup ((refRow t :: sortRowsDesc df).map
          (·.constraint_description))).map (mkBootLine (refRow t :: sortRowsDesc df))) := rfl
  rw [hstep, hcs]
  refine ⟨_, rfl, ?_⟩
  rw [List.map_cons]
  refine ⟨_, _, rfl, ?_, ?_, ?_, ?_⟩
  · simp [mkBootLine, labelOf_ref]
  · intro x hx
    simp only [mkBootLine] at hx
    have hfil : (refRow t :: sortRowsDesc df).filter
        (fun r => r.constraint_description = "Allowable utilisation")
        = refRow t :: (sortRowsDesc df).filter
            (fun r => r.constraint_description = "Allowable utilisation") := by
      rw [List.filter_cons]
      simp [refRow]
    have hfil2 : (sortRowsDesc df).filter
        (fun r => r.constraint_description = "Allowable utilisation") = [] := by
      apply List.filter_eq_nil_iff.mpr
      intro r hr
      have : r.constraint_description ∈ keys := by
        apply (goodSnap_sorted_desc_perm hg).mem_iff.mp
        exact List.mem_map_of_mem _ hr
      simpa using hrefs _ this
    rw [hfil, hfil2] at hx
    simp only [List.map_cons, List.map_nil, refRow] at hx
    simpa using hx
  · rw [List.map_map]
    have heq : ((·.label) ∘ mkBootLine (refRow t :: sortRowsDesc df))
        = fun c => labelOf c := by
      funext c
      simp [mkBootLine]
    rw [heq]
    exact (goodSnap_sorted_desc_perm hg).map labelOf
  · intro c hc ln hln hlab
    obtain ⟨c', hc'mem, hc'eq⟩ := List.mem_map.mp hln
    have hc'keys : c' ∈ keys := (goodSnap_sorted_desc_perm hg).mem_iff.mp hc'mem
    have hlab' : labelOf c' = labelOf c := by
      rw [← hlab, ← hc'eq]
      simp [mkBootLine]
    have hcc : c' = c := List.inj_on_of_nodup_map hnd hc'keys hc hlab'
    subst hcc
    obtain ⟨r, hr, hrts, _⟩ := goodSnap_filter_key hg hndk hc'keys (hrefs _ hc'keys)
    rw [← hc'eq]
    constructor
    · simp only [mkBootLine, hr, List.map_cons, List.map_nil, hrts]
      exact (pySliceLast_singleton t hist).symm
    · simp [mkBootLine, hr]

end Ukpn

namespace Ukpn

theorem newLineAt_label (df : List Row) (ls : List Line) (t hist i : ℕ)
    (c : String) : (newLineAt df ls t hist i c).label = labelOf c := by
  unfold newLineAt
  split
  · rfl
  · cases dictLookup ls.tail (labelOf c) <;> rfl

theorem rebuiltAt_succ_eq {keys : List String} {t : ℕ} {df : List Row}
    (hg : GoodSnap keys t df) (hndk : keys.Nodup)
    (hrefs : ∀ c ∈ keys, c ≠ "Allowable utilisation")
    (ls : List Line) (hist j : ℕ)
    (hj : j < ((sortRowsDesc df).map (·.constraint_description)).length) :
    rebuiltAt (refRow t :: sortRowsDesc df) ls t hist (j + 1)
      = newLineAt (refRow t :: sortRowsDesc df) ls t hist (j + 1)
          (((sortRowsDesc df).map (·.constraint_description)).getD j "") := by
  rw [rebuiltAt, goodSnap_cs hg hndk hrefs, if_pos (by
    simp only [List.length_cons]
    omega), List.getD_cons_succ]

theorem window_step {keys : List String} {k hist t : ℕ} {df : List Row}
    {past : List ℕ} {ls : List Line}
    (hnd : (keys.map labelOf).Nodup)
    (href : ∀ c ∈ keys, labelOf c ≠ "Allowable utilisation")
    (hK : keys.length ≤ k) (hne : keys ≠ [])
    (hg : GoodSnap keys t df)
    (hfresh : ∀ x ∈ past, x < t)
    (hinv : WindowInv keys hist past ls) :
    ∃ ls', update_graph df ls k hist = .ok ls'
      ∧ WindowInv keys hist (past ++ [t]) ls' := by
  obtain ⟨l0, tl, rfl, hl0lab, hl0x, htlperm, htlkey⟩ := hinv
  have hndk : keys.Nodup := hnd.of_map
  have hrefs := keys_ne_ref href
  have hdfne : df ≠ [] := goodSnap_ne_nil hg hne
  have htop : topKdf df k = sortRowsDesc df := goodSnap_topK hg hK
  have hsne : sortRowsDesc df ≠ [] := by
    intro h
    apply hdfne
    have hp := sortRowsDesc_perm df
    rw [h] at hp
    exact hp.symm.eq_nil
  obtain ⟨r0, rtl, hcons⟩ := List.exists_cons_of_ne_nil hsne
  have hh : (topKdf df k).head? = some r0 := by rw [htop, hcons]; rfl
  have hts : r0.timestamp = t := hg.2 r0 ((sortRowsDesc_perm df).mem_iff.mp
    (by rw [hcons]; exact List.mem_cons_self _ _))
  rw [update_graph_eq_of_head hh, hts, htop]
  have hcs := goodSnap_cs hg hndk hrefs
  have hmem : t ∉ l0.xdata := fun hx => lt_irrefl t (hfresh t (hl0x t hx))
  have htllen : tl.length = keys.length := by
    have := htlperm.length_eq
    simpa using this
  have hdesclen : ((sortRowsDesc df).map (·.constraint_description)).length
      = keys.length := (goodSnap_sorted_desc_perm hg).length_eq
  have hcslen : (firstDedup ((refRow t :: sortRowsDesc df).map
      (·.constraint_description))).length = keys.length + 1 := by
    rw [hcs]
    simp [hdesclen]
  have hstep : mergeStep (refRow t :: sortRowsDesc df) t (l0 :: tl) hist
      = .ok (rebuiltLines (refRow t :: sortRowsDesc df) (l0 :: tl) t hist) := by
    simp only [mergeStep]
    rw [if_neg hmem, if_neg (by
      simp only [List.length_cons]
      omega)]
  rw [hstep]
  refine ⟨_, rfl, ?_⟩
  rw [rebuiltLines, show (l0 :: tl).length = tl.length + 1 from rfl,
    List.range_succ_eq_map, List.map_cons, List.map_map]
  have hhead0 : rebuiltAt (refRow t :: sortRowsDesc df) (l0 :: tl) t hist 0
      = newLineAt (refRow t :: sortRowsDesc df) (l0 :: tl) t hist 0
          ((firstDedup ((refRow t :: sortRowsDesc df).map
            (·.constraint_description))).getD 0 "") := by
    rw [rebuiltAt, if_pos (by omega)]
  rw [hhead0]
  refine ⟨_, _, rfl, ?_, ?_, ?_, ?_⟩
  · rw [newLineAt_label, hcs, List.getD_cons_zero, labelOf_ref]
  · intro x hx
    rw [hcs, List.getD_cons_zero] at hx
    unfold newLineAt at hx
    rw [if_pos rfl] at hx
    simp only [List.getD_cons_zero] at hx
    have hsub := (pySliceLast_sublist (l0.xdata ++ [t]) hist).mem hx
    rcases List.mem_append.mp hsub with h1 | h1
    · exact List.mem_append_left _ (hl0x x h1)
    · exact List.mem_append_right _ h1
  · rw [List.map_map]
    have hmapeq : (List.range tl.length).map
        ((fun l => l.label) ∘ rebuiltAt (refRow t :: sortRowsDesc df) (l0 :: tl) t hist ∘ Nat.succ)
        = ((sortRowsDesc df).map (·.constraint_description)).map labelOf := by
      rw [show tl.length = ((sortRowsDesc df).map (·.constraint_description)).length by omega]
      rw [← map_range_getD ((sortRowsDesc df).map (·.constraint_description)) "" labelOf]
      apply List.map_congr_left
      intro j hj
      have hjlt := List.mem_range.mp hj
      simp only [Function.comp_apply]
      rw [rebuiltAt_succ_eq hg hndk hrefs _ hist j hjlt, newLineAt_label]
    rw [hmapeq]
    exact (goodSnap_sorted_desc_perm hg).map labelOf
  · intro c hc ln hln hlab
    obtain ⟨j, hjmem, hjeq⟩ := List.mem_map.mp hln
    have hjlt : j < tl.length := List.mem_range.mp hjmem
    have hjlt2 : j < ((sortRowsDesc df).map (·.constraint_description)).length := by
      omega
    simp only [Function.comp_apply] at hjeq
    rw [rebuiltAt_succ_eq hg hndk hrefs _ hist j hjlt2] at hjeq
    set cj := ((sortRowsDesc df).map (·.constraint_description)).getD j "" with hcj
    have hcjmem : cj ∈ (sortRowsDesc df).map (·.constraint_description) := by
      rw [hcj, List.getD_eq_getElem?_getD, List.getElem?_eq_getElem hjlt2]
      exact List.getElem_mem _
    have hcjkeys : cj ∈ keys := (goodSnap_sorted_desc_perm hg).mem_iff.mp hcjmem
    have hlabcj : labelOf cj = labelOf c := by
      rw [← hlab, ← hjeq, newLineAt_label]
    have hcc : cj = c := List.inj_on_of_nodup_map hnd hcjkeys hc hlabcj
    obtain ⟨r, hr, hrts, hrdesc⟩ :=
      goodSnap_filter_key hg hndk hc (hrefs _ hc)
    have hold : ∃ old, dictLookup (l0 :: tl).tail (labelOf c) = some old
        ∧ old ∈ tl ∧ old.label = labelOf c := by
      apply dictLookup_found
      have : labelOf c ∈ tl.map (·.label) := by
        apply htlperm.symm.mem_iff.mp
        exact List.mem_map_of_mem labelOf hc
      obtain ⟨old, holdmem, holdlab⟩ := List.mem_map.mp this
      exact ⟨old, holdmem, holdlab⟩
    obtain ⟨old, holdlk, holdmem, holdlab⟩ := hold
    obtain ⟨holdx, holdy⟩ := htlkey c hc old holdmem holdlab
    have hnl : newLineAt (refRow t :: sortRowsDesc df) (l0 :: tl) t hist (j + 1) cj
        = { label := labelOf c
            xdata := pySliceLast (old.xdata ++ [r.timestamp]) hist
            ydata := pySliceLast (old.ydata ++ [r.utilisation]) hist } := by
      rw [newLineAt, if_neg (by omega)]
      simp only [hcc, hr, List.map_cons, List.map_nil]
      rw [holdlk]
    rw [← hjeq, hnl]
    constructor
    · simp only [hrts, holdx]
      exact pySliceLast_append_left past [t] hist
    · simp only [pySliceLast_length, List.length_append, holdy,
        List.length_singleton]

end Ukpn

namespace Ukpn

theorem window_run {keys : List String} {k hist : ℕ}
    (hnd : (keys.map labelOf).Nodup)
    (href : ∀ c ∈ keys, labelOf c ≠ "Allowable utilisation")
    (hK : keys.length ≤ k) (hne : keys ≠ [])
    {snaps : List (List Row)} {tss : List ℕ}
    (hgood : List.Forall₂ (fun df t => GoodSnap keys t df) snaps tss) :
    ∀ {past : List ℕ} {ls : List Line},
      (∀ x ∈ past, ∀ t ∈ tss, x < t) →
      List.Pairwise (· < ·) tss →
      WindowInv keys hist past ls →
      ∃ ls', runCycles k hist snaps ls = .ok ls'
        ∧ WindowInv keys hist (past ++ tss) ls' := by
  induction hgood with
  | nil =>
    intro past ls _ _ hinv
    exact ⟨ls, rfl, by simpa using hinv⟩
  | cons hg hrest ih =>
    next df t snaps' tss' =>
    intro past ls hpast hpw hinv
    obtain ⟨ls1, hok, hinv1⟩ := window_step hnd href hK hne hg
      (fun x hx => hpast x hx t (List.mem_cons_self t tss')) hinv
    have hpast' : ∀ x ∈ past ++ [t], ∀ t' ∈ tss', x < t' := by
      intro x hx t' ht'
      rcases List.mem_append.mp hx with h1 | h1
      · exact hpast x h1 t' (List.mem_cons_of_mem t ht')
      · rw [List.mem_singleton.mp h1]
        exact (List.pairwise_cons.mp hpw).1 t' ht'
    obtain ⟨ls', hok', hinv'⟩ := ih hpast' (List.pairwise_cons.mp hpw).2 hinv1
    refine ⟨ls', ?_, by simpa using hinv'⟩
    rw [runCycles, hok]
    exact hok'

theorem window_bound_full {keys : List String} {snaps : List (List Row)}
    {tss : List ℕ} {k hist : ℕ} {key : String}
    (hnd : (keys.map labelOf).Nodup)
    (href : ∀ c ∈ keys, labelOf c ≠ "Allowable utilisation")
    (hK : keys.length ≤ k) (hH : 1 ≤ hist)
    (hts : List.Pairwise (· < ·) tss)
    (hgood : List.Forall₂ (fun df t => GoodSnap keys t df) snaps tss)
    (hkey : key ∈ keys) (hsne : snaps ≠ []) :
    ∃ ls, runCycles k hist snaps [] = .ok ls ∧
      ∃ ln, ln ∈ ls ∧ ln.label = labelOf key
        ∧ ls.filter (fun l => l.label = labelOf key) = [ln]
        ∧ ln.xdata = pySliceLast tss hist
        ∧ ln.xdata.length ≤ hist
        ∧ List.Pairwise (· < ·) ln.xdata
        ∧ ln.ydata.length = ln.xdata.length := by
  have hne : keys ≠ [] := List.ne_nil_of_mem hkey
  cases hgood with
  | nil => exact absurd rfl hsne
  | cons hg hrest =>
    next s0 t0 snaps' tss' =>
    obtain ⟨ls1, hok1, hinv1⟩ := window_boot hnd href hK hne hg
    have hpast : ∀ x ∈ [t0], ∀ t' ∈ tss', x < t' := by
      intro x hx t' ht'
      rw [List.mem_singleton.mp hx]
      exact (List.pairwise_cons.mp hts).1 t' ht'
    obtain ⟨ls, hok, hinv⟩ := window_run hnd href hK hne hrest hpast
      (List.pairwise_cons.mp hts).2 hinv1
    refine ⟨ls, ?_, ?_⟩
    · rw [runCycles, hok1]
      exact hok
    · obtain ⟨l0, tl, rfl, hl0lab, _, htlperm, htlkey⟩ := hinv
      have hcnt : (tl.map (·.label)).count (labelOf key) = 1 := by
        rw [htlperm.count_eq]
        exact List.count_eq_one_of_mem hnd (List.mem_map_of_mem labelOf hkey)
      have hflen : (tl.filter (fun l => l.label = labelOf key)).length = 1 := by
        rw [← List.countP_eq_length_filter]
        rw [← hcnt, List.count, List.countP_map]
        apply List.countP_congr
        intro l _
        simp [Function.comp_apply]
      obtain ⟨ln, hln⟩ := List.length_eq_one.mp hflen
      have hlnmem : ln ∈ tl := List.mem_of_mem_filter (by
        rw [hln]
        exact List.mem_singleton.mpr rfl)
      have hlnlab : ln.label = labelOf key := by
        have hmf : ln ∈ tl.filter (fun l => l.label = labelOf key) := by
          rw [hln]
          exact List.mem_singleton.mpr rfl
        simpa using List.of_mem_filter hmf
      have hfull : (l0 :: tl).filter (fun l => l.label = labelOf key)
          = [ln] := by
        rw [List.filter_cons, if_neg (by
          simp only [hl0lab]
          intro hcontra
          exact href key hkey (by
            simpa using (of_decide_eq_true hcontra).symm))]
        exact hln
      obtain ⟨hx, hy⟩ := htlkey key hkey ln hlnmem hlnlab
      refine ⟨ln, List.mem_cons_of_mem l0 hlnmem, hlnlab, hfull, by simpa using hx, ?_, ?_, hy⟩
      · rw [show ([t0] ++ tss' : List ℕ) = t0 :: tss' from rfl] at hx
        rw [hx, pySliceLast_length, if_neg (by omega)]
        omega
      · rw [show ([t0] ++ tss' : List ℕ) = t0 :: tss' from rfl] at hx
        rw [hx]
        exact hts.sublist (pySliceLast_sublist _ _)

end Ukpn

namespace Ukpn

theorem sortRowsDesc_nan_last (df : List Row) :
    List.Pairwise (fun a b => a.utilisation.isNaN = true → b.utilisation.isNaN = true)
      (sortRowsDesc df) := by
  unfold sortRowsDesc
  rw [List.pairwise_append]
  refine ⟨?_, ?_, ?_⟩
  · apply List.pairwise_of_forall_mem_list
    intro a ha _ _ hnan
    have : (!a.utilisation.isNaN) = true :=
      (List.mem_filter.mp ((sortDesc_perm _).mem_iff.mp ha)).2
    simp [hnan] at this
  · apply List.pairwise_of_forall_mem_list
    intro _ _ b hb _
    simpa using (List.mem_filter.mp hb).2
  · intro _ _ b hb _
    simpa using (List.mem_filter.mp hb).2

theorem sortRowsDesc_posInf_head {df : List Row} {r : Row}
    (hmem : r ∈ df) (hr : r.utilisation = .posInf) :
    ∃ h, (sortRowsDesc df).head? = some h ∧ h.utilisation = .posInf := by
  have hmem' : r ∈ sortRowsDesc df := (sortRowsDesc_perm df).mem_iff.mpr hmem
  obtain ⟨h, tl, hcons⟩ := List.exists_cons_of_ne_nil (List.ne_nil_of_mem hmem')
  refine ⟨h, by rw [hcons]; rfl, ?_⟩
  rcases List.mem_cons.mp (hcons ▸ hmem') with rfl | htl
  · exact hr
  · have hpw := pairwise_sortRowsDesc df
    have hnan := sortRowsDesc_nan_last df
    rw [hcons] at hpw hnan
    have hrel : rowDescRel h r := (List.pairwise_cons.mp hpw).1 r htl
    have hprop := (List.pairwise_cons.mp hnan).1 r htl
    unfold rowDescRel at hrel
    rw [hr] at hrel
    cases hu : h.utilisation with
    | num q => rw [hu] at hrel; simp [PyFloat.lt] at hrel
    | posInf => rfl
    | negInf => rw [hu] at hrel; simp [PyFloat.lt] at hrel
    | nan =>
      have := hprop (by rw [hu]; rfl)
      rw [hr] at this
      simp [PyFloat.isNaN] at this

theorem pollLoop_missing_key {key : Option String} {k hist : ℕ}
    {fetches : List (List Reading)} (hkey : keyMissing key = true)
    (hne : fetches ≠ []) :
    pollLoop key k hist fetches []
      = ([Event.loopEnter], .crashed "API key is required to fetch data from the API.") := by
  cases fetches with
  | nil => exact absurd rfl hne
  | cons df rest =>
    rw [pollLoop, if_pos hkey]

theorem main_model_missing_key {key : Option String} {k hist : ℕ}
    {fetches : List (List Reading)} (hkey : keyMissing key = true)
    (hne : fetches ≠ []) :
    main_model key k hist fetches
      = ([Event.mkdirOutput, Event.plotInit, Event.loopEnter],
         .crashed "API key is required to fetch data from the API.") := by
  rw [main_model, pollLoop_missing_key hkey hne]

end Ukpn

namespace Ukpn

/-- C1: Idempotent re-poll.  If a call of update_graph on a snapshot
whose rows all carry the shared timestamp t succeeded, then a second
call on any nonempty snapshot carrying the same shared timestamp t
returns the line list unchanged: the duplicate-timestamp check on the
reference line skips the whole redraw. -/
theorem claim_C1 {df1 df2 : List Row} {lines lines1 : List Line}
    {k hist t : ℕ}
    (ht1 : ∀ r ∈ df1, r.timestamp = t)
    (ht2 : ∀ r ∈ df2, r.timestamp = t) (hne2 : df2 ≠ [])
    (hok : update_graph df1 lines k hist = .ok lines1) :
    update_graph df2 lines1 k hist = .ok lines1 := by
  obtain ⟨hk, _, l0, rest, rfl, hmem⟩ := update_graph_ok_first ht1 hok
  exact update_graph_repoll_skip ht2 hne2 hk hmem

/-- Witness for C1 at a concrete bootstrap state and a same-timestamp
re-poll. -/
theorem claim_C1_witness :
    (∀ r ∈ ([⟨1, "B", PyFloat.num (mkRat 3 4)⟩] : List Row), r.timestamp = 1)
    ∧ update_graph [⟨1, "B", PyFloat.num (mkRat 3 4)⟩]
        [⟨"Allowable utilisation", [1], [PyFloat.num 1]⟩,
         ⟨"A", [1], [PyFloat.num (mkRat 1 2)]⟩] 2 5
      = .ok [⟨"Allowable utilisation", [1], [PyFloat.num 1]⟩,
             ⟨"A", [1], [PyFloat.num (mkRat 1 2)]⟩] :=
  ⟨by decide,
    @claim_C1 [⟨1, "A", PyFloat.num (mkRat 1 2)⟩]
      [⟨1, "B", PyFloat.num (mkRat 3 4)⟩] [] _ 2 5 1
      (by decide) (by decide) (by decide) (by rfl)⟩

/-- C4: Top-K output shape.  For a nonempty snapshot with shared
timestamp t and K at least 1, the assembled plotting frame is the
reference row followed by the top-K rows: exactly min K (length df) + 1
rows, never more than K + 1, the first row being the synthetic
reference with utilisation exactly 1 and the shared timestamp. -/
theorem claim_C4 {df : List Row} {k t : ℕ}
    (hk : 1 ≤ k) (hne : df ≠ []) (ht : ∀ r ∈ df, r.timestamp = t) :
    rankedRows df k = .ok (refRow t :: topKdf df k)
    ∧ (refRow t :: topKdf df k).length = min k df.length + 1
    ∧ min k df.length + 1 ≤ k + 1
    ∧ (refRow t :: topKdf df k).head? = some (refRow t)
    ∧ (refRow t).utilisation = .num 1
    ∧ (refRow t).timestamp = t := by
  refine ⟨rankedRows_eq hk hne ht, ?_, by omega, rfl, rfl, rfl⟩
  rw [List.length_cons, length_topKdf]

/-- Witness for C4 on a concrete two-row snapshot with K = 2. -/
theorem claim_C4_witness :
    (1 ≤ 2)
    ∧ (rankedRows [⟨5, "A", PyFloat.num 1⟩, ⟨5, "B", PyFloat.num 0⟩] 2
        = .ok (refRow 5 :: topKdf [⟨5, "A", PyFloat.num 1⟩, ⟨5, "B", PyFloat.num 0⟩] 2)
      ∧ (refRow 5 :: topKdf [⟨5, "A", PyFloat.num 1⟩, ⟨5, "B", PyFloat.num 0⟩] 2).length
          = min 2 ([⟨5, "A", PyFloat.num 1⟩, ⟨5, "B", PyFloat.num 0⟩] : List Row).length + 1
      ∧ min 2 ([⟨5, "A", PyFloat.num 1⟩, ⟨5, "B", PyFloat.num 0⟩] : List Row).length + 1 ≤ 2 + 1
      ∧ (refRow 5 :: topKdf [⟨5, "A", PyFloat.num 1⟩, ⟨5, "B", PyFloat.num 0⟩] 2).head?
          = some (refRow 5)
      ∧ (refRow 5).utilisation = .num 1
      ∧ (refRow 5).timestamp = 5) :=
  ⟨by decide, @claim_C4 [⟨5, "A", PyFloat.num 1⟩, ⟨5, "B", PyFloat.num 0⟩] 2 5
    (by decide) (by decide) (by decide)⟩

/-- C7: End-to-end example.  Readings A(present 50, trim 100),
B(present 90, trim 100), C(present missing, trim 50) at shared
timestamp 5 derive utilisations 1/2, 9/10 and 0; with K = 2 the
assembled frame is the reference row (utilisation 1) followed by B then
A, and C is excluded. -/
theorem claim_C7 :
    (clean_data_and_add_utilisation
        [⟨5, "A", some 50, some 100⟩, ⟨5, "B", some 90, some 100⟩,
         ⟨5, "C", none, some 50⟩]).map (·.utilisation)
      = [.num (mkRat 1 2), .num (mkRat 9 10), .num 0]
    ∧ rankedRows ((clean_data_and_add_utilisation
        [⟨5, "A", some 50, some 100⟩, ⟨5, "B", some 90, some 100⟩,
         ⟨5, "C", none, some 50⟩]).map toRow) 2
      = .ok [refRow 5, ⟨5, "B", .num (mkRat 9 10)⟩, ⟨5, "A", .num (mkRat 1 2)⟩] :=
  ⟨by decide, by rfl⟩

/-- C8: Deriver cardinality and value behaviour at the failing input of
the mutation claim.  In this embedding the deriver is the value-level
function of the source: it keeps the row count of every snapshot, and
on the single-row snapshot with a missing present value it fills the
value with 0 and derives utilisation 0.  The in-place mutation of the
callers frame, which the claim denies, is a Python object effect
outside the value model; see RESULTS for the divergence. -/
theorem claim_C8 :
    clean_data_and_add_utilisation [⟨5, "C", none, some 50⟩]
      = [⟨5, "C", 0, some 50, PyFloat.num 0⟩]
    ∧ ∀ df : List Reading,
        (clean_data_and_add_utilisation df).length = df.length :=
  ⟨by decide, fun df => by simp [clean_data_and_add_utilisation]⟩

/-- C10: A bootstrap cycle that saw one constraint followed by a cycle
with three distinct constraints makes update_graph raise IndexError at
the list assignment past the bootstrap line count: the claimed totality
fails on this reachable input. -/
theorem claim_C10 :
    update_graph [⟨1, "A", PyFloat.num (mkRat 1 2)⟩] [] 10 5
      = .ok [⟨"Allowable utilisation", [1], [PyFloat.num 1]⟩,
             ⟨"A", [1], [PyFloat.num (mkRat 1 2)]⟩]
    ∧ update_graph
        [⟨2, "B", PyFloat.num (mkRat 1 2)⟩, ⟨2, "C", PyFloat.num (mkRat 2 5)⟩,
         ⟨2, "D", PyFloat.num (mkRat 3 10)⟩]
        [⟨"Allowable utilisation", [1], [PyFloat.num 1]⟩,
         ⟨"A", [1], [PyFloat.num (mkRat 1 2)]⟩] 10 5
      = .error "IndexError: list index out of range" :=
  ⟨by rfl, by rfl⟩

end Ukpn

namespace Ukpn

/-- C2 counterexample: three cycles at timestamps 1, 2, 3, window 2,
each contributing one point for key D.  Because cycle 2 has fewer
distinct keys than there are lines, the stale bootstrap line of D
survives at a trailing slot, the label dict then resolves D to the
stale duplicate, and the freshly drawn D series ends as [1, 3]: it does
not hold the most recent points [2, 3], refuting the window-bound claim
as stated. -/
theorem claim_C2_counterexample :
    runCycles 10 2
      [[⟨1, "A", .num (mkRat 9 10)⟩, ⟨1, "B", .num (mkRat 8 10)⟩,
        ⟨1, "C", .num (mkRat 7 10)⟩, ⟨1, "D", .num (mkRat 6 10)⟩],
       [⟨2, "D", .num (mkRat 1 2)⟩],
       [⟨3, "D", .num (mkRat 1 2)⟩]] []
      = .ok [⟨"Allowable utilisation", [2, 3], [.num 1, .num 1]⟩,
             ⟨"D", [1, 3], [.num (mkRat 6 10), .num (mkRat 1 2)]⟩,
             ⟨"B", [1], [.num (mkRat 8 10)]⟩,
             ⟨"C", [1], [.num (mkRat 7 10)]⟩,
             ⟨"D", [1], [.num (mkRat 6 10)]⟩]
    ∧ ∀ ln ∈ ([⟨"Allowable utilisation", [2, 3], [.num 1, .num 1]⟩,
             ⟨"D", [1, 3], [.num (mkRat 6 10), .num (mkRat 1 2)]⟩,
             ⟨"B", [1], [.num (mkRat 8 10)]⟩,
             ⟨"C", [1], [.num (mkRat 7 10)]⟩,
             ⟨"D", [1], [.num (mkRat 6 10)]⟩] : List Line),
        ln.label = "D" → ln.xdata ≠ [2, 3] :=
  ⟨by rfl, by decide⟩

/-- C2 amended: when additionally every cycle carries exactly the same
distinct key set as the bootstrap cycle (one row per key, display-safe
distinct labels, none equal to the reference label, at most K keys) and
the shared timestamps strictly increase, then for every key the line
list holds exactly one series with that label, its x data is exactly
the last max_plot_history shared timestamps, so its length never
exceeds the window (window at least 1) and its points are in
chronological order with matching y length. -/
theorem claim_C2_amended {keys : List String} {snaps : List (List Row)}
    {tss : List ℕ} {k hist : ℕ} {key : String}
    (hnd : (keys.map labelOf).Nodup)
    (href : ∀ c ∈ keys, labelOf c ≠ "Allowable utilisation")
    (hK : keys.length ≤ k) (hH : 1 ≤ hist)
    (hts : List.Pairwise (· < ·) tss)
    (hgood : List.Forall₂ (fun df t => GoodSnap keys t df) snaps tss)
    (hkey : key ∈ keys) (hsne : snaps ≠ []) :
    ∃ ls, runCycles k hist snaps [] = .ok ls ∧
      ∃ ln, ln ∈ ls ∧ ln.label = labelOf key
        ∧ ls.filter (fun l => l.label = labelOf key) = [ln]
        ∧ ln.xdata = pySliceLast tss hist
        ∧ ln.xdata.length ≤ hist
        ∧ List.Pairwise (· < ·) ln.xdata
        ∧ ln.ydata.length = ln.xdata.length :=
  window_bound_full hnd href hK hH hts hgood hkey hsne

/-- Witness for the amended C2 on two cycles of the single key A with
window 1. -/
theorem claim_C2_amended_witness :
    (1 ≤ 1)
    ∧ (∃ ls, runCycles 1 1
        [[⟨1, "A", PyFloat.num 1⟩], [⟨2, "A", PyFloat.num 1⟩]] [] = .ok ls ∧
      ∃ ln, ln ∈ ls ∧ ln.label = labelOf "A"
        ∧ ls.filter (fun l => l.label = labelOf "A") = [ln]
        ∧ ln.xdata = pySliceLast [1, 2] 1
        ∧ ln.xdata.length ≤ 1
        ∧ List.Pairwise (· < ·) ln.xdata
        ∧ ln.ydata.length = ln.xdata.length) :=
  ⟨by decide,
    @claim_C2_amended ["A"]
      [[⟨1, "A", PyFloat.num 1⟩], [⟨2, "A", PyFloat.num 1⟩]] [1, 2] 1 1 "A"
      (by decide) (by decide) (by decide) (by decide) (by decide)
      (List.Forall₂.cons ⟨List.Perm.refl _, by decide⟩
        (List.Forall₂.cons ⟨List.Perm.refl _, by decide⟩ List.Forall₂.nil))
      (by decide) (by decide)⟩

/-- C3 counterexample: after a bootstrap that plotted key A, a cycle
whose ranked rows contain only the new key B overwrites the slot of A
(slots are reassigned by rank position), so the series of A is deleted
from the drawable set in that very cycle, refuting the claim that an
absent key merely stops being appended. -/
theorem claim_C3_counterexample :
    update_graph [⟨1, "A", .num (mkRat 1 2)⟩] [] 2 5
      = .ok [⟨"Allowable utilisation", [1], [.num 1]⟩,
             ⟨"A", [1], [.num (mkRat 1 2)]⟩]
    ∧ "A" ∈ ([⟨"Allowable utilisation", [1], [.num 1]⟩,
              ⟨"A", [1], [.num (mkRat 1 2)]⟩] : List Line).map (·.label)
    ∧ "A" ∉ ([⟨2, "B", .num (mkRat 7 10)⟩] : List Row).map (·.constraint_description)
    ∧ update_graph [⟨2, "B", .num (mkRat 7 10)⟩]
        [⟨"Allowable utilisation", [1], [.num 1]⟩,
         ⟨"A", [1], [.num (mkRat 1 2)]⟩] 2 5
      = .ok [⟨"Allowable utilisation", [1, 2], [.num 1, .num 1]⟩,
             ⟨"B", [2], [.num (mkRat 7 10)]⟩]
    ∧ ∀ ln ∈ ([⟨"Allowable utilisation", [1, 2], [.num 1, .num 1]⟩,
               ⟨"B", [2], [.num (mkRat 7 10)]⟩] : List Line),
        ln.label ≠ "A" :=
  ⟨by rfl, by decide, by decide, by rfl, by decide⟩

/-- C3 amended: a key absent from the ranked rows is never appended to;
on a successful cycle every slot at or past the number of distinct keys
of the cycle is left untouched, so a dropped-out series survives
exactly when its slot index is beyond the keys drawn this cycle -
otherwise the slot is overwritten by the key now holding that rank. -/
theorem claim_C3_amended {df : List Row} {lines lines' : List Line}
    {k hist : ℕ} (hok : update_graph df lines k hist = .ok lines')
    (i : ℕ) (hi : numConstraints df k ≤ i) :
    lines'[i]? = lines[i]? := by
  cases hh : (topKdf df k).head? with
  | none =>
    unfold update_graph at hok
    rw [hh] at hok
    cases hok
  | some r0 =>
    rw [update_graph_eq_of_head hh] at hok
    refine mergeStep_slots hok i ?_
    simpa [numConstraints, refRow] using hi

/-- Witness for the amended C3: a three-line state, a one-key cycle,
slot 2 keeps the old stale line. -/
theorem claim_C3_amended_witness :
    (numConstraints [⟨2, "B", PyFloat.num (mkRat 1 2)⟩] 2 ≤ 2)
    ∧ ([⟨"Allowable utilisation", [1, 2], [PyFloat.num 1, PyFloat.num 1]⟩,
        ⟨"B", [2], [PyFloat.num (mkRat 1 2)]⟩,
        ⟨"X", [1], [PyFloat.num 1]⟩] : List Line)[2]?
      = ([⟨"Allowable utilisation", [1], [PyFloat.num 1]⟩,
          ⟨"A", [1], [PyFloat.num 1]⟩,
          ⟨"X", [1], [PyFloat.num 1]⟩] : List Line)[2]? :=
  ⟨by decide,
    @claim_C3_amended [⟨2, "B", PyFloat.num (mkRat 1 2)⟩]
      [⟨"Allowable utilisation", [1], [PyFloat.num 1]⟩,
       ⟨"A", [1], [PyFloat.num 1]⟩, ⟨"X", [1], [PyFloat.num 1]⟩]
      [⟨"Allowable utilisation", [1, 2], [PyFloat.num 1, PyFloat.num 1]⟩,
       ⟨"B", [2], [PyFloat.num (mkRat 1 2)]⟩, ⟨"X", [1], [PyFloat.num 1]⟩]
      2 5 (by rfl) 2 (by decide)⟩

end Ukpn

namespace Ukpn

/-- C6 counterexample: a reading with positive present value and zero
trim capacity derives utilisation +infinity, which ranks first and
wins the single top-K slot against an ordinary 0.9 row - it does not
rank as -infinity and it does win. -/
theorem claim_C6_counterexample :
    (cleanOne ⟨7, "ZeroTrim", some 50, some 0⟩).utilisation = .posInf
    ∧ (topKdf ((clean_data_and_add_utilisation
        [⟨7, "ZeroTrim", some 50, some 0⟩,
         ⟨7, "Normal", some 90, some 100⟩]).map toRow) 1).map
        (fun r => (r.constraint_description, r.utilisation))
      = [("ZeroTrim", PyFloat.posInf)] :=
  ⟨by rfl, by decide⟩

/-- C6 amended: the derivation never raises; a zero trim with positive
present value yields +infinity, which sorts to the head (it always wins
a slot); a zero trim with zero or missing present value, or a missing
trim, yields NaN, and NaN rows are placed after every non-NaN row of
the sort. -/
theorem claim_C6_amended :
    (∀ r : Reading, r.trim_amps = some 0 → 0 < r.present_amps_value.getD 0 →
        (cleanOne r).utilisation = .posInf)
    ∧ (∀ r : Reading, r.trim_amps = some 0 → r.present_amps_value.getD 0 = 0 →
        (cleanOne r).utilisation = .nan)
    ∧ (∀ r : Reading, r.trim_amps = none → (cleanOne r).utilisation = .nan)
    ∧ (∀ df : List Row, List.Pairwise
        (fun a b => a.utilisation.isNaN = true → b.utilisation.isNaN = true)
        (sortRowsDesc df))
    ∧ (∀ (df : List Row) (r : Row), r ∈ df → r.utilisation = .posInf →
        ∃ h, (sortRowsDesc df).head? = some h ∧ h.utilisation = .posInf) := by
  refine ⟨?_, ?_, ?_, sortRowsDesc_nan_last, ?_⟩
  · intro r h1 h2
    simp [cleanOne, pydivRat, h1, h2]
  · intro r h1 h2
    simp [cleanOne, pydivRat, h1, h2]
  · intro r h1
    simp [cleanOne, pydivRat, h1]
  · intro df r hmem hr
    exact sortRowsDesc_posInf_head hmem hr

/-- Witness for the amended C6 at concrete readings. -/
theorem claim_C6_amended_witness :
    ((⟨7, "Z", some 50, some 0⟩ : Reading).trim_amps = some 0)
    ∧ (cleanOne ⟨7, "Z", some 50, some 0⟩).utilisation = .posInf
    ∧ (cleanOne ⟨7, "Z", none, some 0⟩).utilisation = .nan
    ∧ (cleanOne ⟨7, "Z", some 3, none⟩).utilisation = .nan
    ∧ (∃ h, (sortRowsDesc [⟨7, "Z", PyFloat.posInf⟩]).head? = some h
        ∧ h.utilisation = .posInf) :=
  ⟨rfl, claim_C6_amended.1 _ rfl (by decide),
    claim_C6_amended.2.1 _ rfl (by decide),
    claim_C6_amended.2.2.1 _ rfl,
    claim_C6_amended.2.2.2.2 [⟨7, "Z", PyFloat.posInf⟩]
      ⟨7, "Z", PyFloat.posInf⟩ (by decide) rfl⟩

/-- C9 counterexample: with the API key absent, the run enters the
first loop iteration before the error: the trace contains the
loop-entry event ahead of the crash, so the configuration error is not
raised before the polling loop begins. -/
theorem claim_C9_counterexample :
    main_model none 10 1 [[]]
      = ([Event.mkdirOutput, Event.plotInit, Event.loopEnter],
         .crashed "API key is required to fetch data from the API.")
    ∧ Event.loopEnter ∈ (main_model none 10 1 [[]]).1 :=
  ⟨by rfl, by decide⟩

/-- C9 amended: a missing (or empty) API key makes the fetch helper
raise inside the first loop iteration, before any HTTP request; no
fetch, persist or render event occurs, and the exception is not caught
by the KeyboardInterrupt handler, so the process dies with a nonzero
exit status. -/
theorem claim_C9_amended {key : Option String} {k hist : ℕ}
    {fetches : List (List Reading)} (hkey : keyMissing key = true)
    (hne : fetches ≠ []) :
    main_model key k hist fetches
      = ([Event.mkdirOutput, Event.plotInit, Event.loopEnter],
         .crashed "API key is required to fetch data from the API.")
    ∧ Event.httpRequest ∉ (main_model key k hist fetches).1
    ∧ Event.persistCsv ∉ (main_model key k hist fetches).1
    ∧ Event.graphUpdate ∉ (main_model key k hist fetches).1 := by
  have h := @main_model_missing_key key k hist fetches hkey hne
  refine ⟨h, ?_, ?_, ?_⟩ <;> rw [h] <;> decide

/-- Witness for the amended C9 with a missing key and one cycle of
fuel. -/
theorem claim_C9_amended_witness :
    (keyMissing none = true)
    ∧ (main_model none 10 1 [[]]
        = ([Event.mkdirOutput, Event.plotInit, Event.loopEnter],
           .crashed "API key is required to fetch data from the API.")
      ∧ Event.httpRequest ∉ (main_model none 10 1 [[]]).1
      ∧ Event.persistCsv ∉ (main_model none 10 1 [[]]).1
      ∧ Event.graphUpdate ∉ (main_model none 10 1 [[]]).1) :=
  ⟨rfl, @claim_C9_amended none 10 1 [[]] rfl (by decide)⟩

end Ukpn
